import Mathlib

/-!
Verification development for the webrtc-object-detection repository.

Shallow embedding of the core pipeline:
* `src/services/webrtc.js` — frame queue, backpressure, `processNextFrame`,
* `src/services/metrics.js` — counters and `calculateLatencyStats`,
* `src/services/inference.js` — `detectObjects` error containment,
* the `ObjectTracker` class — IoU, greedy association, track lifecycle.

JavaScript numbers are modelled by `ℚ` (the code performs only ring
operations, comparisons and division on them), machine timestamps and
identifiers by `Nat`, arrays by `List`, and the single-threaded event loop
by explicit state passing / a small labelled transition system.
-/

namespace WebRTCOD

/-- Axis-aligned bounding box, the `{xmin, ymin, xmax, ymax}` objects the
tracker manipulates. -/
structure Box where
  xmin : ℚ
  ymin : ℚ
  xmax : ℚ
  ymax : ℚ
deriving DecidableEq, Repr, Inhabited

/-- `Math.max` on rationals, written with an explicit comparison so that
the kernel can evaluate it. -/
def maxQ (a b : ℚ) : ℚ := if a ≤ b then b else a

/-- `Math.min` on rationals, written with an explicit comparison so that
the kernel can evaluate it. -/
def minQ (a b : ℚ) : ℚ := if a ≤ b then a else b

/-- Embedding of `ObjectTracker.calculateIoU` (tracker source, lines
273-287): clamp to the intersection rectangle, return `0` when it is
degenerate, otherwise intersection area over union area. -/
def calculateIoU (box1 box2 : Box) : ℚ :=
  let x1 := maxQ box1.xmin box2.xmin
  let y1 := maxQ box1.ymin box2.ymin
  let x2 := minQ box1.xmax box2.xmax
  let y2 := minQ box1.ymax box2.ymax
  if x2 ≤ x1 ∨ y2 ≤ y1 then 0
  else
    let intersection := (x2 - x1) * (y2 - y1)
    let area1 := (box1.xmax - box1.xmin) * (box1.ymax - box1.ymin)
    let area2 := (box2.xmax - box2.xmin) * (box2.ymax - box2.ymin)
    let union := area1 + area2 - intersection
    intersection / union

/-- A box is valid when it has positive extent on both axes. -/
def Box.Valid (b : Box) : Prop := b.xmin < b.xmax ∧ b.ymin < b.ymax

instance (b : Box) : Decidable b.Valid := by
  unfold Box.Valid; infer_instance

/-- Two boxes are disjoint when they are separated on some axis (their
interiors share no point). -/
def Box.Disj (a b : Box) : Prop :=
  a.xmax ≤ b.xmin ∨ b.xmax ≤ a.xmin ∨ a.ymax ≤ b.ymin ∨ b.ymax ≤ a.ymin

instance (a b : Box) : Decidable (a.Disj b) := by
  unfold Box.Disj; infer_instance

/-- A raw detection as consumed by the tracker: spread fields
`label, score, xmin, ymin, xmax, ymax`. -/
structure Detection where
  label : String
  score : ℚ
  xmin : ℚ
  ymin : ℚ
  xmax : ℚ
  ymax : ℚ
deriving DecidableEq, Repr, Inhabited

/-- The box carried by a detection. -/
def Detection.box (d : Detection) : Box :=
  ⟨d.xmin, d.ymin, d.xmax, d.ymax⟩

/-- A track record, mirroring the object literal built by
`ObjectTracker.createTrack` (timestamps are `Nat` milliseconds). -/
structure Track where
  id : Nat
  bbox : Box
  label : String
  score : ℚ
  prediction : Box
  velocityX : ℚ
  velocityY : ℚ
  timeSinceUpdate : Nat
  hits : Nat
  age : Nat
  firstFrameId : Nat
  lastFrameId : Nat
  createdAt : Nat
  lastUpdateTime : Nat
deriving DecidableEq, Repr

/-- Embedding of `ObjectTracker.createTrack` (lines 391-416): a fresh track
with `hits = 1`, `age = 0`, zero velocity, assigned the current
`nextTrackId`. -/
def createTrack (nextId : Nat) (d : Detection) (frameId currentTime : Nat) : Track :=
  { id := nextId
    bbox := d.box
    label := d.label
    score := d.score
    prediction := d.box
    velocityX := 0
    velocityY := 0
    timeSinceUpdate := 0
    hits := 1
    age := 0
    firstFrameId := frameId
    lastFrameId := frameId
    createdAt := currentTime
    lastUpdateTime := currentTime }

/-- Embedding of the per-track body of `ObjectTracker.predict`: shift the
current box by the velocity (dt = 1 frame). -/
def predictTrack (t : Track) : Track :=
  { t with prediction :=
      ⟨t.bbox.xmin + t.velocityX, t.bbox.ymin + t.velocityY,
       t.bbox.xmax + t.velocityX, t.bbox.ymax + t.velocityY⟩ }

/-- Embedding of `ObjectTracker.updateTrack` (lines 355-386): refresh
velocity from the top-left finite difference, adopt the detection box and
score, reset `timeSinceUpdate`, increment `hits`. -/
def updateTrack (t : Track) (d : Detection) (frameId currentTime : Nat) : Track :=
  { t with
    velocityX := d.xmin - t.bbox.xmin
    velocityY := d.ymin - t.bbox.ymin
    bbox := d.box
    score := d.score
    timeSinceUpdate := 0
    hits := t.hits + 1
    lastFrameId := frameId
    lastUpdateTime := currentTime }

/-- Embedding of the per-track body of `ObjectTracker.pruneOldTracks`
(lines 421-439): increment `age` first, then delete the track when
`timeSinceUpdate > maxAge` or when it is below `minHits` with the
incremented `age` exceeding the hard-coded limit 10. -/
def pruneStep (maxAge minHits : Nat) (t : Track) : Option Track :=
  let t1 := { t with age := t.age + 1 }
  if maxAge < t1.timeSinceUpdate ∨ (t1.hits < minHits ∧ 10 < t1.age) then
    none
  else
    some t1

/-- `ObjectTracker.pruneOldTracks` over the whole live set (the `Map`
iterates in insertion order). -/
def pruneOldTracks (maxAge minHits : Nat) (tracks : List Track) : List Track :=
  tracks.filterMap (pruneStep maxAge minHits)

/-- The record exposed per confirmed track by
`ObjectTracker.getConfirmedTracks` (box fields spread first, trajectory
elided). -/
structure ConfirmedTrack where
  xmin : ℚ
  ymin : ℚ
  xmax : ℚ
  ymax : ℚ
  trackId : Nat
  label : String
  score : ℚ
  age : Nat
  velocityX : ℚ
  velocityY : ℚ
deriving DecidableEq, Repr

/-- The projection applied to each surviving track by
`getConfirmedTracks`. -/
def renderTrack (t : Track) : ConfirmedTrack :=
  { xmin := t.bbox.xmin
    ymin := t.bbox.ymin
    xmax := t.bbox.xmax
    ymax := t.bbox.ymax
    trackId := t.id
    label := t.label
    score := t.score
    age := t.age
    velocityX := t.velocityX
    velocityY := t.velocityY }

/-- Embedding of `ObjectTracker.getConfirmedTracks` (lines 444-456): filter
the live set by `hits >= minHits` and project each track. -/
def getConfirmedTracks (minHits : Nat) (tracks : List Track) : List ConfirmedTrack :=
  (tracks.filter (fun t => minHits ≤ t.hits)).map renderTrack

/-- One full `update` cycle as experienced by a single track that is
matched by a detection: `predict`, then `updateTrack`, then its share of
`pruneOldTracks`. -/
def matchedCycle (maxAge minHits : Nat) (d : Detection) (frameId currentTime : Nat)
    (t : Track) : Option Track :=
  pruneStep maxAge minHits (updateTrack (predictTrack t) d frameId currentTime)

/-- State of a track that is created by detection `d` in cycle 1 and
matched by `d` in every subsequent cycle: `alwaysMatchedTrack … k` is the
track (if still alive) after `k ≥ 1` full tracker update cycles. -/
def alwaysMatchedTrack (maxAge minHits : Nat) (d : Detection) : Nat → Option Track
  | 0 => none
  | 1 => pruneStep maxAge minHits (createTrack 1 d 0 0)
  | k + 2 => (alwaysMatchedTrack maxAge minHits d (k + 1)).bind
      (matchedCycle maxAge minHits d (k + 1) (k + 1))

/-- A concrete detection used for counterexamples and witnesses. -/
def dPerson : Detection :=
  { label := "person", score := 9/10, xmin := 1/10, ymin := 1/10, xmax := 2/5, ymax := 2/5 }

/-- The mutable registry of `ObjectTracker`: the live tracks in `Map`
insertion order, plus the `nextTrackId` counter (initially `1`). -/
structure TrackerState where
  tracks : List Track
  nextTrackId : Nat
deriving DecidableEq, Repr

/-- The registry as built by the `ObjectTracker` constructor. -/
def initTracker : TrackerState := { tracks := [], nextTrackId := 1 }

/-- In-place update of the `n`-th element of a list (the effect of
mutating one track object held in the `Map`). -/
def updateNth (f : Track → Track) : Nat → List Track → List Track
  | _, [] => []
  | 0, t :: ts => f t :: ts
  | n + 1, t :: ts => t :: updateNth f n ts

/-- The primitive mutations `ObjectTracker.update` performs on the
registry: creating a track for an unmatched detection (which assigns
`nextTrackId` and post-increments it), the pruning pass, and the in-place
update of one matched track (`predict` followed by `updateTrack`, which
never touches `id`).  Every run of `update` is a finite sequence of
these. -/
inductive TrackerOp where
  | create (d : Detection) (frameId currentTime : Nat)
  | prune (maxAge minHits : Nat)
  | updateAt (i : Nat) (d : Detection) (frameId currentTime : Nat)

/-- Apply one registry mutation. -/
def applyOp : TrackerOp → TrackerState → TrackerState
  | .create d frameId t, s =>
      { tracks := s.tracks ++ [createTrack s.nextTrackId d frameId t],
        nextTrackId := s.nextTrackId + 1 }
  | .prune maxAge minHits, s =>
      { s with tracks := pruneOldTracks maxAge minHits s.tracks }
  | .updateAt i d frameId t, s =>
      { s with tracks :=
          updateNth (fun tr => updateTrack (predictTrack tr) d frameId t) i s.tracks }

/-- Run a sequence of registry mutations. -/
def runOps (ops : List TrackerOp) (s : TrackerState) : TrackerState :=
  ops.foldl (fun st op => applyOp op st) s

/-- The live trackIds, in insertion (= creation) order. -/
def idsOf (s : TrackerState) : List Nat := s.tracks.map Track.id

/-- Registry invariant: the live trackIds are strictly increasing in
creation order, and all lie below `nextTrackId`. -/
def TrackerInv (s : TrackerState) : Prop :=
  (idsOf s).Sorted (· < ·) ∧ ∀ x ∈ idsOf s, x < s.nextTrackId

/-- One step of the inner scan of `ObjectTracker.associate`: update the
running `(bestJ, bestCost)` pair (where `none` plays the role of
`bestJ = -1, bestCost = Infinity`) when the current cost is strictly
lower. -/
def minStep (f : Nat → ℚ) (acc : Option (Nat × ℚ)) (j : Nat) : Option (Nat × ℚ) :=
  match acc with
  | none => some (j, f j)
  | some (bj, bc) => if f j < bc then some (j, f j) else some (bj, bc)

/-- The inner loop of `ObjectTracker.associate`: scan all detection
indices in order, considering only those still in `unmatchedDetections`,
keeping the first index of strictly lowest cost. -/
def bestFor (cost : Nat → ℚ) (numDets : Nat) (avail : List Nat) : Option (Nat × ℚ) :=
  (List.range numDets).foldl
    (fun acc j => if j ∈ avail then minStep cost acc j else acc) none

/-- The cost matrix of `ObjectTracker.associate`:
`1 − IoU(track.prediction, detection)`. -/
def costMatrix (preds dets : List Box) (i j : Nat) : ℚ :=
  1 - calculateIoU (preds.getD i default) (dets.getD j default)

/-- The outer loop of `ObjectTracker.associate` (lines 311-327): process
track indices in order; for each, find the cheapest still-unmatched
detection; commit the pair when its cost is strictly below the threshold,
deleting the detection from the unmatched set. -/
def associateGo (cost : Nat → Nat → ℚ) (numDets : Nat) (thr : ℚ) :
    List Nat → List (Nat × Nat) → List Nat → List (Nat × Nat) × List Nat
  | [], matched, avail => (matched, avail)
  | i :: rest, matched, avail =>
    match bestFor (cost i) numDets avail with
    | none => associateGo cost numDets thr rest matched avail
    | some (bj, bc) =>
      if bc < thr then
        associateGo cost numDets thr rest (matched ++ [(i, bj)]) (avail.erase bj)
      else
        associateGo cost numDets thr rest matched avail

/-- The record returned by `ObjectTracker.associate`. -/
structure AssocResult where
  matched : List (Nat × Nat)
  unmatchedTracks : List Nat
  unmatchedDetections : List Nat
deriving DecidableEq, Repr

/-- Embedding of `ObjectTracker.associate` (lines 292-334): greedy
per-track assignment against the `1 − IoU` cost matrix with threshold
`1 − iouThreshold`; the unmatched sets retain insertion order. -/
def associate (preds dets : List Box) (iouThreshold : ℚ) : AssocResult :=
  let res := associateGo (costMatrix preds dets) dets.length (1 - iouThreshold)
      (List.range preds.length) [] (List.range dets.length)
  { matched := res.1
    unmatchedTracks := (List.range preds.length).filter
      (fun i => res.1.all (fun p => p.1 != i))
    unmatchedDetections := res.2 }

/-- First element of minimal `f`-value in a list (earlier elements win
ties), together with that value. -/
def argminFirst (f : Nat → ℚ) : List Nat → Option (Nat × ℚ)
  | [] => none
  | x :: xs =>
    match argminFirst f xs with
    | none => some (x, f x)
    | some (y, c) => if f x ≤ c then some (x, f x) else some (y, c)

/-- First cell of minimal cost in a row-major cell list (row-major scan
order breaks ties), together with that cost. -/
def argminCell (f : Nat × Nat → ℚ) : List (Nat × Nat) → Option ((Nat × Nat) × ℚ)
  | [] => none
  | x :: xs =>
    match argminCell f xs with
    | none => some (x, f x)
    | some (y, c) => if f x ≤ c then some (x, f x) else some (y, c)

/-- Modelled from the spec: the association scheme the spec's design note
attributes to the source — iterate tracks in the outer loop and take the
first best still-available detection per track, committing it when its
cost is strictly below the threshold. -/
def rowGreedy (cost : Nat → Nat → ℚ) (thr : ℚ) :
    List Nat → List Nat → List (Nat × Nat)
  | [], _ => []
  | i :: rest, avail =>
    match argminFirst (cost i) avail with
    | none => rowGreedy cost thr rest avail
    | some (j, c) =>
      if c < thr then (i, j) :: rowGreedy cost thr rest (avail.erase j)
      else rowGreedy cost thr rest avail

/-- All cells of the remaining cost matrix, in row-major order. -/
def cellList (rows cols : List Nat) : List (Nat × Nat) :=
  match rows with
  | [] => []
  | i :: rest => cols.map (fun j => (i, j)) ++ cellList rest cols

/-- Modelled from the spec (§4.3 step 2): the globally-greedy reference
scheme — repeatedly commit the lowest remaining cost cell strictly below
the threshold (row-major scan order breaking ties), remove its row and
column, and stop when no eligible cell remains. -/
def globalGreedy (cost : Nat → Nat → ℚ) (thr : ℚ) :
    Nat → List Nat → List Nat → List (Nat × Nat)
  | 0, _, _ => []
  | fuel + 1, rows, cols =>
    match argminCell (fun p => cost p.1 p.2) (cellList rows cols) with
    | none => []
    | some (p, c) =>
      if c < thr then p :: globalGreedy cost thr fuel (rows.erase p.1) (cols.erase p.2)
      else []

/-- The globally-greedy matching on the same inputs as `associate`. -/
def globalGreedyMatch (preds dets : List Box) (iouThreshold : ℚ) : List (Nat × Nat) :=
  globalGreedy (costMatrix preds dets) (1 - iouThreshold) preds.length
    (List.range preds.length) (List.range dets.length)

/-- Combine two running `(index, cost)` candidates, keeping the left one
on ties (the left candidate was seen first in scan order). -/
def combineMin (acc : Option (Nat × ℚ)) : Option (Nat × ℚ) → Option (Nat × ℚ)
  | none => acc
  | some (y, c) =>
    match acc with
    | none => some (y, c)
    | some (x, b) => if c < b then some (y, c) else some (x, b)

/-- Track predictions for the association counterexample. -/
def cexPreds : List Box := [⟨0, 0, 10, 1⟩, ⟨0, 0, 36/5, 1⟩]

/-- Detections for the association counterexample. -/
def cexDets : List Box := [⟨0, 0, 8, 1⟩, ⟨3, 0, 10, 1⟩]

/-- A queued frame, as built by `WebRTCService.handlePhoneFrame`
(lines 27-33). -/
structure Frame where
  frameId : Nat
  imageData : String
  captureTs : Nat
  recvTs : Nat
  queuedTs : Nat
deriving DecidableEq, Repr

/-- The `MetricsService` counters plus its `isCollecting` flag. -/
structure Metrics where
  isCollecting : Bool
  totalFrames : Nat
  processedFrames : Nat
  droppedFrames : Nat
deriving DecidableEq, Repr

/-- Embedding of `MetricsService.recordDroppedFrame` (metrics source,
lines 96-99). -/
def recordDroppedFrame (m : Metrics) : Metrics :=
  if m.isCollecting then { m with droppedFrames := m.droppedFrames + 1 } else m

/-- Embedding of `MetricsService.recordTotalFrame` (lines 104-107). -/
def recordTotalFrame (m : Metrics) : Metrics :=
  if m.isCollecting then { m with totalFrames := m.totalFrames + 1 } else m

/-- State shared by `WebRTCService` and `MetricsService`: the frame
queue, the `isProcessing` flag, and the metrics counters. -/
structure PipelineState where
  frameQueue : List Frame
  isProcessing : Bool
  metrics : Metrics
deriving DecidableEq, Repr

/-- The state built by the two service constructors: empty queue, not
processing, zeroed counters, collection started. -/
def initPipeline : PipelineState :=
  { frameQueue := []
    isProcessing := false
    metrics := { isCollecting := true, totalFrames := 0, processedFrames := 0,
                 droppedFrames := 0 } }

/-- The queue effect of `WebRTCService.handlePhoneFrame` (lines 35-41):
when the queue already holds at least `maxQueueSize` frames, the oldest is
shifted off — only a debug line is logged, no metrics method is called —
then the new frame is pushed. -/
def handlePhoneFrameEnqueue (maxQueueSize : Nat) (f : Frame) (s : PipelineState) :
    PipelineState :=
  { s with frameQueue :=
      (if maxQueueSize ≤ s.frameQueue.length then s.frameQueue.drop 1
       else s.frameQueue) ++ [f] }

/-- A detection as returned by `InferenceService.detectObjects`:
`{label, score, bbox: [b0, b1, b2, b3]}`. -/
structure DetectionOut where
  label : String
  score : ℚ
  bbox0 : ℚ
  bbox1 : ℚ
  bbox2 : ℚ
  bbox3 : ℚ
deriving DecidableEq, Repr

/-- One detection entry of the wire-level result record. -/
structure ResultDetection where
  label : String
  score : ℚ
  xmin : ℚ
  ymin : ℚ
  xmax : ℚ
  ymax : ℚ
deriving DecidableEq, Repr

/-- The per-frame result record built by `processNextFrame`
(lines 92-105), field names as on the wire. -/
structure FrameResult where
  frame_id : Nat
  capture_ts : Nat
  recv_ts : Nat
  inference_ts : Nat
  detections : List ResultDetection
deriving DecidableEq, Repr

/-- The detection mapping of `processNextFrame` lines 97-104. -/
def toResultDetection (d : DetectionOut) : ResultDetection :=
  { label := d.label, score := d.score,
    xmin := d.bbox0, ymin := d.bbox1, xmax := d.bbox2, ymax := d.bbox3 }

/-- Embedding of `InferenceService.detectObjects` (inference source,
lines 117-136): every internal error is caught and turned into `[]`, so
the returned promise resolves on all paths. `inner` is the outcome of the
selected inference backend. -/
def detectObjects (inner : Except Unit (List DetectionOut)) : List DetectionOut :=
  match inner with
  | .ok dets => dets
  | .error _ => []

/-- Embedding of `WebRTCService.processNextFrame` (lines 72-120).
`await` is the outcome of the awaited detector call (`.error` is a
rejected promise, handled by the `catch` block which returns `null`),
`inferenceTs` the value of `Date.now()` after it. The queue is cleared
after popping the newest frame; the `finally` block clears `isProcessing`
on both paths; no metrics or tracker method is called. Returns the value
of the `async` function and the post state. -/
def processNextFrame (await : Except Unit (List DetectionOut)) (inferenceTs : Nat)
    (s : PipelineState) : Option FrameResult × PipelineState :=
  match s.frameQueue.getLast? with
  | none => (none, s)
  | some frame =>
    match await with
    | .error _ => (none, { s with frameQueue := [], isProcessing := false })
    | .ok dets =>
      (some { frame_id := frame.frameId
              capture_ts := frame.captureTs
              recv_ts := frame.recvTs
              inference_ts := inferenceTs
              detections := dets.map toResultDetection },
       { s with frameQueue := [], isProcessing := false })

/-- Run a burst of `handlePhoneFrame` enqueues (no intervening dequeue). -/
def enqueueRun (maxQueueSize : Nat) (fs : List Frame) (s : PipelineState) : PipelineState :=
  fs.foldl (fun st f => handlePhoneFrameEnqueue maxQueueSize f st) s

/-- Scheduler-level state: the frame queue, the `isProcessing` flag, and a
ghost counter of pending `detectObjects` calls. -/
structure SchedState where
  frameQueue : List Frame
  isProcessing : Bool
  inflight : Nat
deriving DecidableEq, Repr

/-- The events of the single-threaded event loop: a frame arriving from
the phone (`handlePhoneFrame`), a scheduler tick (`startQueueProcessor`,
lines 58-66), and the settling of the in-flight detector promise (the
`finally` block of `processNextFrame`). -/
inductive PipeEvent where
  | arrive (f : Frame)
  | tick
  | complete

/-- The synchronous prefix of `processNextFrame` (lines 73-87): return at
once when the queue is empty; otherwise set `isProcessing`, pop the newest
frame, clear the queue, and start the detector call. -/
def beginProcessing (s : SchedState) : SchedState :=
  if s.frameQueue = [] then s
  else { frameQueue := [], isProcessing := true, inflight := s.inflight + 1 }

/-- One atomic event-loop step. `arrive`: enqueue (lines 35-41), then call
`processNextFrame` only when `isProcessing` is clear (line 44); `tick`:
call it only when `isProcessing` is clear and the queue is non-empty
(line 62); `complete`: the `finally` block clears the flag (line 118). -/
def schedStep (maxQueueSize : Nat) : PipeEvent → SchedState → SchedState
  | .arrive f, s =>
    let s1 : SchedState :=
      { s with frameQueue :=
          (if maxQueueSize ≤ s.frameQueue.length then s.frameQueue.drop 1
           else s.frameQueue) ++ [f] }
    if s1.isProcessing then s1 else beginProcessing s1
  | .tick, s =>
    if s.isProcessing = false ∧ s.frameQueue ≠ [] then beginProcessing s else s
  | .complete, s =>
    if 0 < s.inflight then { s with inflight := s.inflight - 1, isProcessing := false }
    else s

/-- The scheduler state built by the `WebRTCService` constructor. -/
def initSched : SchedState :=
  { frameQueue := [], isProcessing := false, inflight := 0 }

/-- States reachable from the initial state by event-loop steps. -/
inductive ReachableSched (maxQueueSize : Nat) : SchedState → Prop where
  | init : ReachableSched maxQueueSize initSched
  | step {s : SchedState} (e : PipeEvent) :
      ReachableSched maxQueueSize s → ReachableSched maxQueueSize (schedStep maxQueueSize e s)

/-- The record returned by `MetricsService.calculateLatencyStats`. -/
structure LatencyStats where
  median : ℚ
  p95 : ℚ
  min : ℚ
  max : ℚ
  avg : ℚ
deriving DecidableEq, Repr

/-- The JS `latencies.slice().sort((a, b) => a - b)` step: a sorted
permutation of the samples, leaving the input array untouched. -/
def sortCopy (l : List ℚ) : List ℚ := List.insertionSort (· ≤ ·) l

/-- Embedding of `MetricsService.calculateLatencyStats` (metrics source,
lines 114-127): zeros for an empty sample list; otherwise sort a copy and
index it — median at `⌊n/2⌋`, p95 at `⌊n·0.95⌋` (written `n·95/100`,
which agrees with the floating-point `Math.floor(n * 0.95)` for every
attainable array length), min at `0`, max at `n − 1` — plus the
arithmetic mean of the unsorted input. -/
def calculateLatencyStats (latencies : List ℚ) : LatencyStats :=
  if latencies.length = 0 then
    { median := 0, p95 := 0, min := 0, max := 0, avg := 0 }
  else
    let sorted := sortCopy latencies
    { median := sorted.getD (sorted.length / 2) 0
      p95 := sorted.getD (sorted.length * 95 / 100) 0
      min := sorted.getD 0 0
      max := sorted.getD (sorted.length - 1) 0
      avg := latencies.sum / latencies.length }

/-- One call of `calculateLatencyStats` as a state transformer: the stats
together with the sample array as the call leaves it — the code sorts a
`slice()` copy, so the array is unchanged. -/
def calculateLatencyStatsRun (latencies : List ℚ) : LatencyStats × List ℚ :=
  (calculateLatencyStats latencies, latencies)

theorem maxQ_eq_max (a b : ℚ) : maxQ a b = max a b := by
  rw [maxQ, max_def]

theorem minQ_eq_min (a b : ℚ) : minQ a b = min a b := by
  rw [minQ, min_def]

theorem calculateIoU_self {b : Box} (hb : b.Valid) : calculateIoU b b = 1 := by
  obtain ⟨hx, hy⟩ := hb
  unfold calculateIoU
  simp only [maxQ_eq_max, minQ_eq_min, max_self, min_self]
  rw [if_neg]
  · have harea : (b.xmax - b.xmin) * (b.ymax - b.ymin) ≠ 0 := by
      have h1 : 0 < b.xmax - b.xmin := by linarith
      have h2 : 0 < b.ymax - b.ymin := by linarith
      positivity
    field_simp
  · push_neg
    constructor <;> linarith

theorem calculateIoU_disjoint {a b : Box} (h : a.Disj b) : calculateIoU a b = 0 := by
  unfold calculateIoU
  simp only [maxQ_eq_max, minQ_eq_min]
  rw [if_pos]
  rcases h with h | h | h | h
  · exact Or.inl (le_trans (min_le_left _ _) (le_trans h (le_max_right _ _)))
  · exact Or.inl (le_trans (min_le_right _ _) (le_trans h (le_max_left _ _)))
  · exact Or.inr (le_trans (min_le_left _ _) (le_trans h (le_max_right _ _)))
  · exact Or.inr (le_trans (min_le_right _ _) (le_trans h (le_max_left _ _)))

theorem calculateIoU_comm (a b : Box) : calculateIoU a b = calculateIoU b a := by
  unfold calculateIoU
  simp only [maxQ_eq_max, minQ_eq_min]
  rw [max_comm b.xmin, max_comm b.ymin, min_comm b.xmax, min_comm b.ymax]
  ring_nf

theorem pruneStep_eq_some (maxAge minHits : Nat) (t : Track)
    (h : ¬ (maxAge < t.timeSinceUpdate ∨ (t.hits < minHits ∧ 10 < t.age + 1))) :
    pruneStep maxAge minHits t = some { t with age := t.age + 1 } := by
  unfold pruneStep
  rw [if_neg]
  exact h

theorem alwaysMatchedTrack_eq (maxAge minHits : Nat) (hm : minHits ≤ 11) (d : Detection) :
    ∀ k, 1 ≤ k → ∃ t, alwaysMatchedTrack maxAge minHits d k = some t ∧
      t.hits = k ∧ t.age = k ∧ t.timeSinceUpdate = 0 := by
  intro k
  induction k with
  | zero => intro h; omega
  | succ n ih =>
    intro _
    cases n with
    | zero =>
      refine ⟨{ createTrack 1 d 0 0 with age := 1 }, ?_, rfl, rfl, rfl⟩
      show pruneStep maxAge minHits (createTrack 1 d 0 0) = _
      rw [pruneStep_eq_some] <;> simp [createTrack]
    | succ m =>
      obtain ⟨t, ht, hhits, hage, htsu⟩ := ih (by omega)
      refine ⟨{ updateTrack (predictTrack t) d (m + 1) (m + 1) with age := t.age + 1 }, ?_, ?_, ?_, ?_⟩
      · show (alwaysMatchedTrack maxAge minHits d (m + 1)).bind
            (matchedCycle maxAge minHits d (m + 1) (m + 1)) = _
        rw [ht, Option.some_bind]
        unfold matchedCycle
        rw [pruneStep_eq_some]
        · simp [updateTrack, predictTrack]
        · simp only [updateTrack, predictTrack]
          push_neg
          refine ⟨by omega, ?_⟩
          intro hlt
          omega
      · simp [updateTrack, predictTrack]; omega
      · simp [updateTrack, predictTrack]; omega
      · simp [updateTrack, predictTrack]

theorem mem_getConfirmedTracks (minHits : Nat) (tracks : List Track) (c : ConfirmedTrack) :
    c ∈ getConfirmedTracks minHits tracks ↔
      ∃ t ∈ tracks, minHits ≤ t.hits ∧ c = renderTrack t := by
  simp only [getConfirmedTracks, List.mem_map, List.mem_filter, decide_eq_true_eq]
  constructor
  · rintro ⟨t, ⟨hmem, hhits⟩, hrender⟩
    exact ⟨t, hmem, hhits, hrender.symm⟩
  · rintro ⟨t, hmem, hhits, hrender⟩
    exact ⟨t, ⟨hmem, hhits⟩, hrender.symm⟩

/-- C4, counterexample to the claim as stated: with `minHits = 12` and
`maxAge = 30`, a track that is matched by the same detection in every
cycle since its creation is pruned at cycle 11 (the hard-coded tentative
age limit 10 in `pruneOldTracks` fires while `hits = 11 < minHits`), so at
its `minHits`-th update cycle it does not appear in the confirmed output —
the track no longer exists at all. -/
theorem c4_confirmation_gating_cex :
    alwaysMatchedTrack 30 12 dPerson 12 = none ∧
      getConfirmedTracks 12 (alwaysMatchedTrack 30 12 dPerson 12).toList = [] := by
  decide

/-- C4 (amended): after every tracker update cycle, `getConfirmedTracks`
returns exactly the live tracks whose `hits ≥ minHits` (so a track with
fewer hits is never exposed); and — provided `minHits ≤ 11`, the bound
forced by the hard-coded tentative age limit 10 in `pruneOldTracks` — a
track that receives a matching detection in every cycle since its creation
has `hits = k` after `k` cycles and appears in the confirmed output
precisely from its `minHits`-th update cycle on. -/
theorem c4_confirmation_gating :
    (∀ (minHits : Nat) (tracks : List Track) (c : ConfirmedTrack),
        c ∈ getConfirmedTracks minHits tracks ↔
          ∃ t ∈ tracks, minHits ≤ t.hits ∧ c = renderTrack t) ∧
    (∀ maxAge minHits : Nat, minHits ≤ 11 → ∀ (d : Detection) (k : Nat), 1 ≤ k →
        ∃ t, alwaysMatchedTrack maxAge minHits d k = some t ∧ t.hits = k ∧
          (renderTrack t ∈ getConfirmedTracks minHits [t] ↔ minHits ≤ k)) := by
  constructor
  · exact mem_getConfirmedTracks
  · intro maxAge minHits hm d k hk
    obtain ⟨t, ht, hhits, _, _⟩ := alwaysMatchedTrack_eq maxAge minHits hm d k hk
    refine ⟨t, ht, hhits, ?_⟩
    rw [mem_getConfirmedTracks]
    constructor
    · rintro ⟨u, hu, hhu, _⟩
      simp only [List.mem_singleton] at hu
      subst hu
      omega
    · intro hmk
      exact ⟨t, by simp, by omega, rfl⟩

/-- Witness for C4 at the default `minHits = 3`, after three cycles. -/
theorem c4_confirmation_gating_witness :
    (∃ t, alwaysMatchedTrack 30 3 dPerson 3 = some t ∧ t.hits = 3 ∧
        (renderTrack t ∈ getConfirmedTracks 3 [t] ↔ 3 ≤ 3)) ∧
    (renderTrack (createTrack 1 dPerson 0 0) ∈ getConfirmedTracks 3 [createTrack 1 dPerson 0 0] ↔
      ∃ t ∈ [createTrack 1 dPerson 0 0], 3 ≤ t.hits ∧
        renderTrack (createTrack 1 dPerson 0 0) = renderTrack t) :=
  ⟨c4_confirmation_gating.2 30 3 (by norm_num) dPerson 3 (by norm_num),
   c4_confirmation_gating.1 3 [createTrack 1 dPerson 0 0] (renderTrack (createTrack 1 dPerson 0 0))⟩

theorem pruneStep_id {maxAge minHits : Nat} {t u : Track}
    (h : pruneStep maxAge minHits t = some u) : u.id = t.id := by
  simp only [pruneStep] at h
  split at h
  · simp at h
  · cases h; rfl

theorem pruneOldTracks_ids_sublist (maxAge minHits : Nat) (l : List Track) :
    List.Sublist ((pruneOldTracks maxAge minHits l).map Track.id) (l.map Track.id) := by
  induction l with
  | nil => simp [pruneOldTracks]
  | cons t ts ih =>
    unfold pruneOldTracks at ih ⊢
    rw [List.filterMap_cons]
    cases hp : pruneStep maxAge minHits t with
    | none => exact (ih).trans (List.sublist_cons_self _ _)
    | some t1 =>
      simp only [List.map_cons]
      rw [pruneStep_id hp]
      exact ih.cons₂ _

theorem updateNth_map_id (f : Track → Track) (hf : ∀ t, (f t).id = t.id) :
    ∀ (n : Nat) (l : List Track), (updateNth f n l).map Track.id = l.map Track.id := by
  intro n
  induction n with
  | zero =>
    intro l
    cases l with
    | nil => rfl
    | cons t ts => simp [updateNth, hf]
  | succ m ih =>
    intro l
    cases l with
    | nil => rfl
    | cons t ts => simp [updateNth, ih]

theorem trackerInv_applyOp {s : TrackerState} (h : TrackerInv s) (op : TrackerOp) :
    TrackerInv (applyOp op s) := by
  obtain ⟨hsort, hlt⟩ := h
  cases op with
  | create d frameId t =>
    constructor
    · show ((s.tracks ++ [createTrack s.nextTrackId d frameId t]).map Track.id).Sorted (· < ·)
      rw [List.map_append]
      rw [List.Sorted, List.pairwise_append]
      refine ⟨hsort, by simp, ?_⟩
      intro a ha b hb
      simp only [List.map_cons, List.map_nil, List.mem_singleton] at hb
      subst hb
      exact hlt a ha
    · intro x hx
      show x < s.nextTrackId + 1
      replace hx : x ∈ (s.tracks ++ [createTrack s.nextTrackId d frameId t]).map Track.id := hx
      simp only [List.map_append, List.mem_append] at hx
      rcases hx with hx | hx
      · exact Nat.lt_succ_of_lt (hlt x hx)
      · simp only [List.map_cons, List.map_nil, List.mem_singleton] at hx
        subst hx
        exact Nat.lt_succ_self _
  | prune maxAge minHits =>
    have hsub := pruneOldTracks_ids_sublist maxAge minHits s.tracks
    exact ⟨hsort.sublist hsub, fun x hx => hlt x (hsub.subset hx)⟩
  | updateAt i d frameId t =>
    have heq : idsOf (applyOp (.updateAt i d frameId t) s) = idsOf s := by
      show (updateNth _ i s.tracks).map Track.id = s.tracks.map Track.id
      exact updateNth_map_id (fun tr => updateTrack (predictTrack tr) d frameId t)
        (fun tr => rfl) i s.tracks
    rw [TrackerInv, heq]
    exact ⟨hsort, hlt⟩

theorem trackerInv_runOps (ops : List TrackerOp) :
    ∀ s, TrackerInv s → TrackerInv (runOps ops s) := by
  induction ops with
  | nil => intro s h; exact h
  | cons op rest ih => intro s h; exact ih _ (trackerInv_applyOp h op)

theorem deadId_applyOp {s : TrackerState} {x : Nat} (op : TrackerOp)
    (h1 : x < s.nextTrackId) (h2 : x ∉ idsOf s) :
    x < (applyOp op s).nextTrackId ∧ x ∉ idsOf (applyOp op s) := by
  cases op with
  | create d frameId t =>
    refine ⟨Nat.lt_succ_of_lt h1, ?_⟩
    intro hx
    replace hx : x ∈ (s.tracks ++ [createTrack s.nextTrackId d frameId t]).map Track.id := hx
    simp only [List.map_append, List.mem_append, List.map_cons, List.map_nil,
      List.mem_singleton] at hx
    rcases hx with hx | hx
    · exact h2 hx
    · rw [hx] at h1
      exact Nat.lt_irrefl _ h1
  | prune maxAge minHits =>
    refine ⟨h1, fun hx => h2 ?_⟩
    exact (pruneOldTracks_ids_sublist maxAge minHits s.tracks).subset hx
  | updateAt i d frameId t =>
    refine ⟨h1, fun hx => h2 ?_⟩
    have heq := updateNth_map_id (fun tr => updateTrack (predictTrack tr) d frameId t)
      (fun tr => rfl) i s.tracks
    show x ∈ idsOf s
    rw [idsOf, ← heq]
    exact hx

theorem deadId_runOps (ops : List TrackerOp) :
    ∀ (s : TrackerState) (x : Nat), x < s.nextTrackId → x ∉ idsOf s →
      x < (runOps ops s).nextTrackId ∧ x ∉ idsOf (runOps ops s) := by
  induction ops with
  | nil => intro s x h1 h2; exact ⟨h1, h2⟩
  | cons op rest ih =>
    intro s x h1 h2
    obtain ⟨h1p, h2p⟩ := deadId_applyOp op h1 h2
    exact ih _ x h1p h2p

/-- C5: trackIds are assigned in strictly increasing order (the live ids,
listed in creation order, form a strictly sorted list), every live track
has a distinct trackId, and a trackId that is not live — in particular one
removed by `pruneOldTracks` — never becomes live again under any further
sequence of registry operations: later-created tracks always receive
fresh, strictly larger ids. -/
theorem c5_trackId_unique (ops : List TrackerOp) :
    (idsOf (runOps ops initTracker)).Sorted (· < ·) ∧
    (idsOf (runOps ops initTracker)).Nodup ∧
    (∀ (x : Nat) (more : List TrackerOp),
      x < (runOps ops initTracker).nextTrackId →
      x ∉ idsOf (runOps ops initTracker) →
      x ∉ idsOf (runOps more (runOps ops initTracker))) := by
  have hinv : TrackerInv (runOps ops initTracker) :=
    trackerInv_runOps ops initTracker
      ⟨by simp [idsOf, initTracker], by simp [idsOf, initTracker]⟩
  refine ⟨hinv.1, hinv.1.nodup, ?_⟩
  intro x more h1 h2
  exact (deadId_runOps more _ x h1 h2).2

/-- Witness for C5: create one track (id 1), then prune; id 0 was never
assigned and stays dead afterwards. -/
theorem c5_trackId_unique_witness :
    (idsOf (runOps [TrackerOp.create dPerson 0 0] initTracker)).Sorted (· < ·) ∧
    0 ∉ idsOf (runOps [TrackerOp.prune 30 3]
        (runOps [TrackerOp.create dPerson 0 0] initTracker)) :=
  ⟨(c5_trackId_unique [TrackerOp.create dPerson 0 0]).1,
   (c5_trackId_unique [TrackerOp.create dPerson 0 0]).2.2 0 [TrackerOp.prune 30 3]
     (by decide) (by decide)⟩

theorem minStep_eq_combineMin (f : Nat → ℚ) (acc : Option (Nat × ℚ)) (x : Nat) :
    minStep f acc x = combineMin acc (some (x, f x)) := by
  cases acc with
  | none => rfl
  | some p => obtain ⟨bj, bc⟩ := p; rfl

theorem combineMin_none_left (b : Option (Nat × ℚ)) : combineMin none b = b := by
  rcases b with _ | ⟨y, c⟩ <;> rfl

theorem combineMin_some_some (x : Nat) (xb : ℚ) (y : Nat) (yc : ℚ) :
    combineMin (some (x, xb)) (some (y, yc)) =
      if yc < xb then some (y, yc) else some (x, xb) := rfl

theorem combineMin_assoc (a b c : Option (Nat × ℚ)) :
    combineMin (combineMin a b) c = combineMin a (combineMin b c) := by
  rcases b with _ | ⟨y, yb⟩
  · rw [show combineMin a none = a from rfl, combineMin_none_left]
  · rcases c with _ | ⟨z, zc⟩
    · rfl
    · rcases a with _ | ⟨x, xa⟩
      · rw [combineMin_none_left, combineMin_none_left]
      · simp only [combineMin_some_some]
        split_ifs <;> simp only [combineMin_some_some] <;> split_ifs <;>
          first | rfl | (exfalso; linarith)

theorem argminFirst_cons (f : Nat → ℚ) (x : Nat) (xs : List Nat) :
    argminFirst f (x :: xs) = combineMin (some (x, f x)) (argminFirst f xs) := by
  cases hxs : argminFirst f xs with
  | none => simp [argminFirst, combineMin, hxs]
  | some yc =>
    obtain ⟨y, c⟩ := yc
    simp only [argminFirst, combineMin, hxs]
    by_cases h : f x ≤ c
    · rw [if_pos h, if_neg (not_lt.mpr h)]
    · rw [if_neg h, if_pos (not_le.mp h)]

theorem foldl_minStep_eq (f : Nat → ℚ) :
    ∀ (l : List Nat) (acc : Option (Nat × ℚ)),
      l.foldl (minStep f) acc = combineMin acc (argminFirst f l) := by
  intro l
  induction l with
  | nil => intro acc; rfl
  | cons x xs ih =>
    intro acc
    rw [List.foldl_cons, ih, minStep_eq_combineMin, combineMin_assoc, ← argminFirst_cons]

theorem foldl_guard_filter {β : Type} (p : Nat → Prop) [DecidablePred p] (g : β → Nat → β) :
    ∀ (l : List Nat) (init : β),
      l.foldl (fun acc j => if p j then g acc j else acc) init =
        (l.filter (fun j => decide (p j))).foldl g init := by
  intro l
  induction l with
  | nil => intro init; rfl
  | cons x xs ih =>
    intro init
    by_cases hx : p x <;> simp [List.filter_cons, hx, ih]

theorem filter_mem_of_sublist {L l : List Nat} (h : List.Sublist l L) :
    L.Nodup → L.filter (fun j => decide (j ∈ l)) = l := by
  induction h with
  | slnil => intro _; rfl
  | @cons l1 l2 a h ih =>
    intro hnd
    rw [List.filter_cons, if_neg, ih hnd.of_cons]
    simp only [decide_eq_true_eq]
    intro ha
    exact (List.nodup_cons.mp hnd).1 (h.subset ha)
  | @cons₂ l1 l2 a h ih =>
    intro hnd
    rw [List.filter_cons, if_pos (by simp)]
    have hcongr : ∀ j ∈ l2, (decide (j ∈ a :: l1) : Bool) = decide (j ∈ l1) := by
      intro j hj
      have hja : j ≠ a := fun he => (List.nodup_cons.mp hnd).1 (he ▸ hj)
      simp [List.mem_cons, hja]
    rw [List.filter_congr hcongr, ih hnd.of_cons]

theorem bestFor_eq_argminFirst (cost : Nat → ℚ) (numDets : Nat) (avail : List Nat)
    (h : List.Sublist avail (List.range numDets)) :
    bestFor cost numDets avail = argminFirst cost avail := by
  unfold bestFor
  rw [foldl_guard_filter (fun j => j ∈ avail) (minStep cost) (List.range numDets) none,
    filter_mem_of_sublist h (List.nodup_range numDets), foldl_minStep_eq,
    combineMin_none_left]

theorem associateGo_eq_rowGreedy (cost : Nat → Nat → ℚ) (numDets : Nat) (thr : ℚ) :
    ∀ (is : List Nat) (matched : List (Nat × Nat)) (avail : List Nat),
      List.Sublist avail (List.range numDets) →
      (associateGo cost numDets thr is matched avail).1 =
        matched ++ rowGreedy cost thr is avail := by
  intro is
  induction is with
  | nil => intro matched avail _; simp [associateGo, rowGreedy]
  | cons i rest ih =>
    intro matched avail h
    rw [associateGo, rowGreedy, bestFor_eq_argminFirst _ _ _ h]
    cases hb : argminFirst (cost i) avail with
    | none => exact ih matched avail h
    | some jc =>
      obtain ⟨j, c⟩ := jc
      dsimp only
      by_cases hc : c < thr
      · rw [if_pos hc, if_pos hc,
          ih (matched ++ [(i, j)]) (avail.erase j) ((avail.erase_sublist j).trans h),
          List.append_assoc]
        rfl
      · rw [if_neg hc, if_neg hc]
        exact ih matched avail h

unseal Rat.add Rat.mul Rat.sub Rat.inv in
/-- C6, counterexample to the claim as stated: with two tracks and two
detections (IoU matrix rows 4/5, 7/10 and 9/10, 21/50; iouThreshold =
3/10, so cost threshold 7/10), `associate` commits [(0,0), (1,1)] while
the globally-greedy reference scheme commits [(1,0), (0,1)] — the two
schemes produce different sets of (track, detection) pairs. -/
theorem c6_greedy_association_cex :
    (associate cexPreds cexDets (3/10)).matched = [(0, 0), (1, 1)] ∧
    globalGreedyMatch cexPreds cexDets (3/10) = [(1, 0), (0, 1)] ∧
    ((0, 0) ∈ (associate cexPreds cexDets (3/10)).matched ∧
      (0, 0) ∉ globalGreedyMatch cexPreds cexDets (3/10)) := by
  decide

/-- C6 (amended): for every set of live tracks and every detection batch,
the matching produced by `associate` equals the row-greedy scheme — tracks
processed in index order, each committing its lowest-cost (first on ties)
still-unmatched detection exactly when that cost is strictly below
`1 − iouThreshold` — which, per the counterexample, differs in general
from the globally-greedy reference scheme. -/
theorem c6_greedy_association (preds dets : List Box) (iouThreshold : ℚ) :
    (associate preds dets iouThreshold).matched =
      rowGreedy (costMatrix preds dets) (1 - iouThreshold)
        (List.range preds.length) (List.range dets.length) := by
  show (associateGo (costMatrix preds dets) dets.length (1 - iouThreshold)
      (List.range preds.length) [] (List.range dets.length)).1 = _
  rw [associateGo_eq_rowGreedy (costMatrix preds dets) dets.length (1 - iouThreshold)
    (List.range preds.length) [] (List.range dets.length) (List.Sublist.refl _),
    List.nil_append]

/-- C7: IoU algebra — `calculateIoU b b = 1` for every valid box,
`calculateIoU a b = 0` for two disjoint valid boxes, and IoU is
symmetric. -/
theorem c7_iou_algebra :
    (∀ b : Box, b.Valid → calculateIoU b b = 1) ∧
    (∀ a b : Box, a.Valid → b.Valid → a.Disj b → calculateIoU a b = 0) ∧
    (∀ a b : Box, calculateIoU a b = calculateIoU b a) :=
  ⟨fun _ hb => calculateIoU_self hb,
   fun _ _ _ _ h => calculateIoU_disjoint h,
   calculateIoU_comm⟩

/-- Witness for C7 at concrete boxes. -/
theorem c7_iou_algebra_witness :
    calculateIoU ⟨0, 0, 2, 2⟩ ⟨0, 0, 2, 2⟩ = 1 ∧
    calculateIoU ⟨0, 0, 1, 1⟩ ⟨5, 5, 6, 6⟩ = 0 ∧
    calculateIoU ⟨0, 0, 2, 3⟩ ⟨1, 1, 4, 4⟩ = calculateIoU ⟨1, 1, 4, 4⟩ ⟨0, 0, 2, 3⟩ :=
  ⟨c7_iou_algebra.1 ⟨0, 0, 2, 2⟩ (by decide),
   c7_iou_algebra.2.1 ⟨0, 0, 1, 1⟩ ⟨5, 5, 6, 6⟩ (by decide) (by decide) (by decide),
   c7_iou_algebra.2.2 ⟨0, 0, 2, 3⟩ ⟨1, 1, 4, 4⟩⟩

theorem enqueueRun_getLast? (maxQueueSize : Nat) :
    ∀ (fs : List Frame) (s : PipelineState) (flast : Frame), fs.getLast? = some flast →
      (enqueueRun maxQueueSize fs s).frameQueue.getLast? = some flast := by
  intro fs
  induction fs with
  | nil => intro s flast h; simp at h
  | cons f fs ih =>
    intro s flast h
    cases fs with
    | nil =>
      simp only [List.getLast?_singleton, Option.some.injEq] at h
      subst h
      simp [enqueueRun, handlePhoneFrameEnqueue, List.getLast?_concat]
    | cons g gs =>
      rw [List.getLast?_cons_cons] at h
      exact ih _ flast h

theorem enqueueRun_metrics (maxQueueSize : Nat) :
    ∀ (fs : List Frame) (s : PipelineState),
      (enqueueRun maxQueueSize fs s).metrics = s.metrics := by
  intro fs
  induction fs with
  | nil => intro s; rfl
  | cons f fs ih => intro s; exact ih _

theorem enqueueRun_isProcessing (maxQueueSize : Nat) :
    ∀ (fs : List Frame) (s : PipelineState),
      (enqueueRun maxQueueSize fs s).isProcessing = s.isProcessing := by
  intro fs
  induction fs with
  | nil => intro s; rfl
  | cons f fs ih => intro s; exact ih _

theorem enqueue_length (maxQueueSize : Nat) (hq : 1 ≤ maxQueueSize) (f : Frame)
    (s : PipelineState) (hlen : s.frameQueue.length ≤ maxQueueSize) :
    (handlePhoneFrameEnqueue maxQueueSize f s).frameQueue.length =
      min (s.frameQueue.length + 1) maxQueueSize := by
  unfold handlePhoneFrameEnqueue
  by_cases h : maxQueueSize ≤ s.frameQueue.length
  · rw [if_pos h]
    simp only [List.length_append, List.length_drop, List.length_cons, List.length_nil]
    omega
  · rw [if_neg h]
    simp only [List.length_append, List.length_cons, List.length_nil]
    omega

theorem enqueueRun_length (maxQueueSize : Nat) (hq : 1 ≤ maxQueueSize) :
    ∀ (fs : List Frame) (s : PipelineState), s.frameQueue.length ≤ maxQueueSize →
      (enqueueRun maxQueueSize fs s).frameQueue.length =
        min (s.frameQueue.length + fs.length) maxQueueSize := by
  intro fs
  induction fs with
  | nil => intro s hlen; simp [enqueueRun]; omega
  | cons f fs ih =>
    intro s hlen
    have hstep := enqueue_length maxQueueSize hq f s hlen
    have hle : (handlePhoneFrameEnqueue maxQueueSize f s).frameQueue.length ≤ maxQueueSize := by
      omega
    have := ih (handlePhoneFrameEnqueue maxQueueSize f s) hle
    show (enqueueRun maxQueueSize fs (handlePhoneFrameEnqueue maxQueueSize f s)).frameQueue.length = _
    rw [this, hstep]
    simp only [List.length_cons]
    omega

/-- C1: keep-latest queue semantics — after any burst of `n ≥ 1`
`handlePhoneFrame` enqueues (`fs.getLast? = some flast` says the burst is
non-empty with last frame `flast`) with no intervening dequeue, the next
`processNextFrame` pops the most recently enqueued frame and returns the
result record for exactly that frame, never an older one. -/
theorem c1_keep_latest (maxQueueSize : Nat) (s : PipelineState) (fs : List Frame)
    (flast : Frame) (hfs : fs.getLast? = some flast) (dets : List DetectionOut)
    (inferenceTs : Nat) :
    (processNextFrame (.ok dets) inferenceTs (enqueueRun maxQueueSize fs s)).1 =
      some { frame_id := flast.frameId
             capture_ts := flast.captureTs
             recv_ts := flast.recvTs
             inference_ts := inferenceTs
             detections := dets.map toResultDetection } := by
  unfold processNextFrame
  rw [enqueueRun_getLast? maxQueueSize fs s flast hfs]

/-- Witness for C1: two frames enqueued into the fresh pipeline; the
dequeue processes frame 2. -/
theorem c1_keep_latest_witness :
    (processNextFrame (.ok []) 100
        (enqueueRun 5 [⟨1, "a", 0, 5, 7⟩, ⟨2, "b", 33, 40, 41⟩] initPipeline)).1 =
      some { frame_id := 2, capture_ts := 33, recv_ts := 40, inference_ts := 100,
             detections := [] } :=
  c1_keep_latest 5 initPipeline [⟨1, "a", 0, 5, 7⟩, ⟨2, "b", 33, 40, 41⟩]
    ⟨2, "b", 33, 40, 41⟩ rfl [] 100

/-- C3, counterexample to the claim as stated: two enqueues into the
fresh pipeline evict nothing (2 < maxQueueSize = 5) and touch no counter —
no code path of `handlePhoneFrame` calls `recordDroppedFrame` — so the
dropped-frame counter stays 0 instead of increasing by n − 1 = 1. -/
theorem c3_dropped_accounting_cex :
    (enqueueRun 5 [⟨1, "a", 0, 5, 7⟩, ⟨2, "b", 33, 40, 41⟩] initPipeline).metrics.droppedFrames
        = 0 ∧
    ¬ ((enqueueRun 5 [⟨1, "a", 0, 5, 7⟩, ⟨2, "b", 33, 40, 41⟩]
          initPipeline).metrics.droppedFrames =
        initPipeline.metrics.droppedFrames + 1) := by
  decide

/-- C3 (amended): `handlePhoneFrame` enqueues never modify any metrics
counter (dropped included — evictions are only logged, never recorded),
and from an empty queue, after `n` enqueues with no intervening dequeue
the queue holds `min n maxQueueSize` frames — so `n − min n maxQueueSize`
frames were evicted, all of them uncounted. -/
theorem c3_dropped_accounting (maxQueueSize : Nat) (hq : 1 ≤ maxQueueSize)
    (fs : List Frame) (s : PipelineState) (hempty : s.frameQueue = []) :
    (enqueueRun maxQueueSize fs s).metrics = s.metrics ∧
    (enqueueRun maxQueueSize fs s).frameQueue.length = min fs.length maxQueueSize := by
  refine ⟨enqueueRun_metrics maxQueueSize fs s, ?_⟩
  have := enqueueRun_length maxQueueSize hq fs s (by rw [hempty]; simp)
  rw [this, hempty]
  simp

/-- Witness for C3 (amended) at `maxQueueSize = 2` with three enqueues:
counters unchanged, queue length `min 3 2 = 2`. -/
theorem c3_dropped_accounting_witness :
    (enqueueRun 2 [⟨1, "a", 0, 5, 7⟩, ⟨2, "b", 33, 40, 41⟩, ⟨3, "c", 66, 70, 71⟩]
        initPipeline).metrics = initPipeline.metrics ∧
    (enqueueRun 2 [⟨1, "a", 0, 5, 7⟩, ⟨2, "b", 33, 40, 41⟩, ⟨3, "c", 66, 70, 71⟩]
        initPipeline).frameQueue.length = min 3 2 :=
  c3_dropped_accounting 2 (by norm_num)
    [⟨1, "a", 0, 5, 7⟩, ⟨2, "b", 33, 40, 41⟩, ⟨3, "c", 66, 70, 71⟩] initPipeline rfl

/-- C9: detector failure containment. If the selected inference backend
errors, `detectObjects` catches it and returns `[]`, and `processNextFrame`
then produces the frame's result record with `detections = []` (what
viewers receive), changes no metrics counter (and calls no tracker — the
service has none), and leaves `isProcessing = false`; and if the awaited
detector promise itself rejected, the `catch`/`finally` blocks return
`null` with `isProcessing = false`, so no error escapes
`processNextFrame` on any path. -/
theorem c9_failure_containment (s : PipelineState) (frame : Frame)
    (hlast : s.frameQueue.getLast? = some frame) (inferenceTs : Nat) :
    ((processNextFrame (.ok (detectObjects (.error ()))) inferenceTs s).1 =
        some { frame_id := frame.frameId, capture_ts := frame.captureTs,
               recv_ts := frame.recvTs, inference_ts := inferenceTs, detections := [] } ∧
      (processNextFrame (.ok (detectObjects (.error ()))) inferenceTs s).2.metrics =
        s.metrics ∧
      (processNextFrame (.ok (detectObjects (.error ()))) inferenceTs s).2.isProcessing =
        false) ∧
    ((processNextFrame (.error ()) inferenceTs s).1 = none ∧
      (processNextFrame (.error ()) inferenceTs s).2.isProcessing = false) := by
  unfold processNextFrame detectObjects
  rw [hlast]
  exact ⟨⟨rfl, rfl, rfl⟩, rfl, rfl⟩

/-- Witness for C9 with one queued frame. -/
theorem c9_failure_containment_witness :
    ((processNextFrame (.ok (detectObjects (.error ()))) 50
        { initPipeline with frameQueue := [⟨1, "a", 0, 5, 7⟩] }).1 =
      some { frame_id := 1, capture_ts := 0, recv_ts := 5, inference_ts := 50,
             detections := [] } ∧
      (processNextFrame (.ok (detectObjects (.error ()))) 50
        { initPipeline with frameQueue := [⟨1, "a", 0, 5, 7⟩] }).2.metrics =
        ({ initPipeline with frameQueue := [⟨1, "a", 0, 5, 7⟩] } : PipelineState).metrics ∧
      (processNextFrame (.ok (detectObjects (.error ()))) 50
        { initPipeline with frameQueue := [⟨1, "a", 0, 5, 7⟩] }).2.isProcessing = false) ∧
    ((processNextFrame (.error ()) 50
        { initPipeline with frameQueue := [⟨1, "a", 0, 5, 7⟩] }).1 = none ∧
      (processNextFrame (.error ()) 50
        { initPipeline with frameQueue := [⟨1, "a", 0, 5, 7⟩] }).2.isProcessing = false) :=
  c9_failure_containment { initPipeline with frameQueue := [⟨1, "a", 0, 5, 7⟩] }
    ⟨1, "a", 0, 5, 7⟩ rfl 50

/-- C10: every `processNextFrame` call that observes a non-empty queue
leaves the queue completely empty afterwards (it pops the newest frame
and clears the rest, whatever the configured capacity allowed in), for
every detector outcome, and no metrics counter (dropped, total,
processed) changes. -/
theorem c10_wholesale_discard (s : PipelineState) (hne : s.frameQueue ≠ [])
    (await : Except Unit (List DetectionOut)) (inferenceTs : Nat) :
    (processNextFrame await inferenceTs s).2.frameQueue = [] ∧
    (processNextFrame await inferenceTs s).2.metrics = s.metrics := by
  unfold processNextFrame
  cases hlast : s.frameQueue.getLast? with
  | none => exact absurd (List.getLast?_eq_none_iff.mp hlast) hne
  | some frame => cases await with
    | error e => exact ⟨rfl, rfl⟩
    | ok dets => exact ⟨rfl, rfl⟩

/-- Witness for C10: two queued frames, erroring detector. -/
theorem c10_wholesale_discard_witness :
    (processNextFrame (.error ()) 9
        { initPipeline with
            frameQueue := [⟨1, "a", 0, 5, 7⟩, ⟨2, "b", 33, 40, 41⟩] }).2.frameQueue = [] ∧
    (processNextFrame (.error ()) 9
        { initPipeline with
            frameQueue := [⟨1, "a", 0, 5, 7⟩, ⟨2, "b", 33, 40, 41⟩] }).2.metrics =
      ({ initPipeline with
          frameQueue := [⟨1, "a", 0, 5, 7⟩, ⟨2, "b", 33, 40, 41⟩] } : PipelineState).metrics :=
  c10_wholesale_discard
    { initPipeline with frameQueue := [⟨1, "a", 0, 5, 7⟩, ⟨2, "b", 33, 40, 41⟩] }
    (by decide) (.error ()) 9

theorem schedInv (maxQueueSize : Nat) {s : SchedState} (h : ReachableSched maxQueueSize s) :
    s.inflight = if s.isProcessing then 1 else 0 := by
  induction h with
  | init => rfl
  | @step s e _ ih =>
    cases e with
    | arrive f =>
      by_cases hp : s.isProcessing = true
      · simp [schedStep, hp] at ih ⊢
        exact ih
      · simp [schedStep, beginProcessing, hp] at ih ⊢
        omega
    | tick =>
      by_cases hc : s.isProcessing = false ∧ s.frameQueue ≠ []
      · obtain ⟨hc1, hc2⟩ := hc
        simp [schedStep, beginProcessing, hc1, hc2] at ih ⊢
        omega
      · simp only [schedStep]
        simp only [if_neg hc]
        exact ih
    | complete =>
      by_cases hc : 0 < s.inflight
      · have hp : s.isProcessing = true := by
          by_contra hps
          rw [Bool.not_eq_true] at hps
          rw [hps] at ih
          simp at ih
          omega
        rw [hp] at ih
        simp at ih
        simp [schedStep, hc, ih]
      · simp only [schedStep]
        simp only [if_neg hc]
        exact ih

/-- C2: in every reachable state of the pipeline at most one detector
call is pending (`inflight ≤ 1`, and it is pending exactly while
`isProcessing` is set); moreover while `isProcessing` is set, neither a
scheduler tick nor an arriving frame starts another detector call — the
flag guard alone blocks both entry points. -/
theorem c2_single_inflight (maxQueueSize : Nat) (s : SchedState)
    (h : ReachableSched maxQueueSize s) :
    s.inflight ≤ 1 ∧
    (s.inflight = if s.isProcessing then 1 else 0) ∧
    (s.isProcessing = true →
      (schedStep maxQueueSize .tick s).inflight = s.inflight ∧
      ∀ f, (schedStep maxQueueSize (.arrive f) s).inflight = s.inflight) := by
  have hinv := schedInv maxQueueSize h
  refine ⟨by rw [hinv]; split <;> omega, hinv, ?_⟩
  intro hp
  constructor
  · show (if s.isProcessing = false ∧ s.frameQueue ≠ [] then beginProcessing s
      else s).inflight = s.inflight
    rw [if_neg (by simp [hp])]
  · intro f
    show (if (⟨_, s.isProcessing, s.inflight⟩ : SchedState).isProcessing then _
      else beginProcessing _).inflight = s.inflight
    rw [if_pos (by simp [hp])]

/-- Witness for C2 at the reachable state reached by one frame arrival
(which starts processing, so the flag is set and both guards are
exercised). -/
theorem c2_single_inflight_witness :
    (schedStep 5 (.arrive ⟨1, "a", 0, 5, 7⟩) initSched).inflight ≤ 1 ∧
    ((schedStep 5 (.arrive ⟨1, "a", 0, 5, 7⟩) initSched).inflight =
      if (schedStep 5 (.arrive ⟨1, "a", 0, 5, 7⟩) initSched).isProcessing then 1 else 0) ∧
    ((schedStep 5 (.arrive ⟨1, "a", 0, 5, 7⟩) initSched).isProcessing = true →
      (schedStep 5 .tick (schedStep 5 (.arrive ⟨1, "a", 0, 5, 7⟩) initSched)).inflight =
        (schedStep 5 (.arrive ⟨1, "a", 0, 5, 7⟩) initSched).inflight ∧
      ∀ f, (schedStep 5 (.arrive f) (schedStep 5 (.arrive ⟨1, "a", 0, 5, 7⟩) initSched)).inflight =
        (schedStep 5 (.arrive ⟨1, "a", 0, 5, 7⟩) initSched).inflight) :=
  c2_single_inflight 5 (schedStep 5 (.arrive ⟨1, "a", 0, 5, 7⟩) initSched)
    (ReachableSched.step (.arrive ⟨1, "a", 0, 5, 7⟩) ReachableSched.init)

theorem sortCopy_length (l : List ℚ) : (sortCopy l).length = l.length :=
  (List.perm_insertionSort _ l).length_eq

theorem sortCopy_sorted (l : List ℚ) : (sortCopy l).Sorted (· ≤ ·) :=
  List.sorted_insertionSort _ l

theorem sortCopy_idem (l : List ℚ) : sortCopy (sortCopy l) = sortCopy l :=
  List.Sorted.insertionSort_eq (sortCopy_sorted l)

theorem sortCopy_sum (l : List ℚ) : (sortCopy l).sum = l.sum :=
  (List.perm_insertionSort _ l).sum_eq

theorem sorted_getD_mono {l : List ℚ} (hs : l.Sorted (· ≤ ·)) {i j : Nat}
    (hij : i ≤ j) (hj : j < l.length) : l.getD i 0 ≤ l.getD j 0 := by
  have hi : i < l.length := lt_of_le_of_lt hij hj
  rw [List.getD_eq_getElem l 0 hi, List.getD_eq_getElem l 0 hj]
  have h2 := hs.rel_get_of_le (a := ⟨i, hi⟩) (b := ⟨j, hj⟩) (Fin.mk_le_mk.mpr hij)
  simpa using h2

/-- C8: `calculateLatencyStats` is a pure function of its sample list and
does not mutate it (the call leaves the array unchanged, so a second call
on the same samples returns identical stats, and the stats are invariant
under pre-sorting the samples), and for every non-empty sample list the
returned values satisfy `min ≤ median ≤ p95 ≤ max`. -/
theorem c8_latency_stats (l : List ℚ) :
    ((calculateLatencyStatsRun l).2 = l ∧
      (calculateLatencyStatsRun ((calculateLatencyStatsRun l).2)).1 =
        (calculateLatencyStatsRun l).1) ∧
    calculateLatencyStats (sortCopy l) = calculateLatencyStats l ∧
    (l ≠ [] →
      (calculateLatencyStats l).min ≤ (calculateLatencyStats l).median ∧
      (calculateLatencyStats l).median ≤ (calculateLatencyStats l).p95 ∧
      (calculateLatencyStats l).p95 ≤ (calculateLatencyStats l).max) := by
  refine ⟨⟨rfl, rfl⟩, ?_, ?_⟩
  · unfold calculateLatencyStats
    by_cases hl : l.length = 0
    · rw [List.length_eq_zero] at hl
      subst hl
      rfl
    · rw [if_neg (by rw [sortCopy_length]; exact hl), if_neg hl,
        sortCopy_idem, sortCopy_length, sortCopy_sum]
  · intro hne
    have hl : l.length ≠ 0 := fun h => hne (List.length_eq_zero.mp h)
    have hpos : 1 ≤ l.length := Nat.one_le_iff_ne_zero.mpr hl
    unfold calculateLatencyStats
    rw [if_neg hl]
    simp only
    have hslen : (sortCopy l).length = l.length := sortCopy_length l
    have hs := sortCopy_sorted l
    refine ⟨?_, ?_, ?_⟩
    · exact sorted_getD_mono hs (Nat.zero_le _) (by rw [hslen]; omega)
    · exact sorted_getD_mono hs (by rw [hslen]; omega) (by rw [hslen]; omega)
    · exact sorted_getD_mono hs (by rw [hslen]; omega) (by rw [hslen]; omega)

/-- Witness for C8 on the samples `[3, 1, 2]`. -/
theorem c8_latency_stats_witness :
    (calculateLatencyStats ([3, 1, 2] : List ℚ)).min ≤
        (calculateLatencyStats [3, 1, 2]).median ∧
      (calculateLatencyStats ([3, 1, 2] : List ℚ)).median ≤
        (calculateLatencyStats [3, 1, 2]).p95 ∧
      (calculateLatencyStats ([3, 1, 2] : List ℚ)).p95 ≤
        (calculateLatencyStats [3, 1, 2]).max :=
  (c8_latency_stats [3, 1, 2]).2.2 (by simp)

end WebRTCOD
